import Mathlib

/-!
Verification of the authentication / authorization / rate-limiting subsystem
of the Discord-MCP-Server repository, as a shallow embedding in Lean 4.

Embedded source files:
  * `src/models/auth.py`       — `PermissionLevel`, `TokenData`
  * `src/auth/rate_limiter.py` — `RateLimiter.is_allowed`,
                                 `RateLimiter.create_rate_limit_key`
  * `src/auth/security.py`     — `create_access_token`, `verify_token`,
                                 `check_permission`
  * `src/auth/middleware.py`   — `require_guild_access`,
                                 `require_channel_access`,
                                 `rate_limit_middleware` (key derivation)

Modelling choices:
  * Timestamps (Python `time.time()` floats) are integers `ℤ`: the
    algorithm uses timestamps only through subtraction and order
    comparisons, which the embedding preserves.
  * The Redis sorted set behind a rate-limit key is a duplicate-free
    `List ℤ`: a member of the zset is the string `str(now)`, so two equal
    timestamps denote the same member and `ZADD` of an existing member does
    not grow the set.
  * The redis-py `pipeline()` used by `is_allowed` is transactional
    (MULTI/EXEC), so one whole `is_allowed` round-trip is one atomic step on
    the store; concurrent executions are modelled as an arbitrary
    serialization order of these atomic steps (`runCalls`).
  * `EXPIRE key window` removes the whole key after `window` seconds of
    inactivity.  Every timestamp still present then is at least `window`
    old, so the lazy `ZREMRANGEBYSCORE` prune performed at the start of the
    next call removes exactly the same members; key expiry is therefore
    observationally a no-op for `is_allowed` and is not modelled separately.
  * JWT signing is idealized as an injective MAC: the signature of a payload
    under a secret is the pair `(secret, payload)`; verification succeeds
    exactly when the signature was produced from the same secret and payload.
  * Python truthiness of an `Optional[str]` (`None` and `""` falsy) is
    `pyTruthy`; `x or y` chains on such values are `firstTruthy`.
-/

namespace DiscordMCP

/-! ## Data model (`src/models/auth.py`) -/

/-- `PermissionLevel(str, Enum)` with values
`read_only`, `read_write`, `moderate`, `admin`. -/
inductive PermissionLevel : Type
  | read_only
  | read_write
  | moderate
  | admin
  deriving DecidableEq, Repr

namespace PermissionLevel

/-- The `.value` string of each enum member (a `str`-enum member equals its
value string). -/
def value : PermissionLevel → String
  | .read_only => "read_only"
  | .read_write => "read_write"
  | .moderate => "moderate"
  | .admin => "admin"

/-- `PermissionLevel.__members__.values()` seen through string equality:
a string `p` satisfies `p in PermissionLevel.__members__.values()` iff it
equals one of the four value strings. -/
def memberValues : List String :=
  ["read_only", "read_write", "moderate", "admin"]

/-- The enum constructor `PermissionLevel(p)`, partial on strings. -/
def ofString (s : String) : Option PermissionLevel :=
  if s = "read_only" then some .read_only
  else if s = "read_write" then some .read_write
  else if s = "moderate" then some .moderate
  else if s = "admin" then some .admin
  else none

end PermissionLevel

/-- `TokenData` (token payload data, `src/models/auth.py`). -/
structure TokenData : Type where
  key_id : Option String
  user_id : Option String
  permissions : List PermissionLevel
  guild_ids : List String
  channel_ids : List String
  deriving DecidableEq, Repr

/-- Python truthiness of an `Optional[str]`: `None` and `""` are falsy. -/
def pyTruthy (o : Option String) : Prop :=
  o ≠ none ∧ o ≠ some ""

instance (o : Option String) : Decidable (pyTruthy o) := by
  unfold pyTruthy; infer_instance

/-- Python `a or b or dflt` on `Optional[str]` values with a string default:
the first truthy operand, else the default. -/
def firstTruthy (a b : Option String) (dflt : String) : String :=
  if pyTruthy a then a.getD ""
  else if pyTruthy b then b.getD ""
  else dflt

/-! ## Rate limiter (`src/auth/rate_limiter.py`) -/

/-- `ZREMRANGEBYSCORE key minScore maxScore`: removes every member whose
score lies in the inclusive interval `[minScore, maxScore]`. -/
def zremrangebyscore (minScore maxScore : ℤ) (s : List ℤ) : List ℤ :=
  s.filter fun t => ¬(minScore ≤ t ∧ t ≤ maxScore)

/-- `ZADD key {str(now): now}`: adds the member if absent; updating the
score of an existing member leaves the set unchanged. -/
def zadd (now : ℤ) (s : List ℤ) : List ℤ :=
  if now ∈ s then s else now :: s

/-- The transactional pipeline body of `RateLimiter.is_allowed` executed at
time `now` on the zset `s` for one key:
`ZREMRANGEBYSCORE key 0 (now - window)`; `ZCARD key` (the count used for the
decision); `ZADD key {str(now): now}`; `EXPIRE key window` (no-op on the
member set, see header).  Returns the decision `request_count < limit`
and the new zset. -/
def is_allowed_step (limit : ℕ) (window now : ℤ) (s : List ℤ) :
    Bool × List ℤ :=
  let afterRemove := zremrangebyscore 0 (now - window) s
  let request_count := afterRemove.length
  (decide (request_count < limit), zadd now afterRemove)

/-- A store interaction that either yields a value or raises
(`redis.exceptions.*`, caught by the `except Exception` handler). -/
inductive StoreResult (α : Type) : Type
  | ok (val : α)
  | err (msg : String)
  deriving DecidableEq, Repr

/-- `RateLimiter.is_allowed key limit window` at time `now`: runs the
pipeline on the store when it is reachable; on any store error the
`except Exception` handler logs and returns `True` (the request proceeds). -/
def RateLimiter.is_allowed (limit : ℕ) (window now : ℤ)
    (store : StoreResult (List ℤ)) : Bool × StoreResult (List ℤ) :=
  match store with
  | .err m => (true, .err m)
  | .ok s =>
      let r := is_allowed_step limit window now s
      (r.1, .ok r.2)

/-- A serialized execution of several `is_allowed` transactions on one key:
`ts` lists the call timestamps in the order in which Redis serializes the
transactions.  Returns the list of decisions and the final zset. -/
def runCalls (limit : ℕ) (window : ℤ) : List ℤ → List ℤ → List Bool × List ℤ
  | [], s => ([], s)
  | now :: rest, s =>
      let r := is_allowed_step limit window now s
      let rr := runCalls limit window rest r.2
      (r.1 :: rr.1, rr.2)

/-- `RateLimiter.create_rate_limit_key(prefix, identifier, endpoint)`:
joins `[prefix, identifier]`, plus `endpoint` when truthy, with `":"`. -/
def create_rate_limit_key (pre identifier : String)
    (endpoint : Option String) : String :=
  let parts := [pre, identifier]
  let parts := if pyTruthy endpoint then parts ++ [endpoint.getD ""] else parts
  String.intercalate ":" parts

/-! ## Security (`src/auth/security.py`) -/

/-- The JWT claims payload actually encoded: the caller-supplied data plus
the `exp` claim added by `create_access_token`. -/
structure Payload : Type where
  key_id : Option String
  user_id : Option String
  permissions : List String
  guild_ids : List String
  channel_ids : List String
  exp : ℤ
  deriving DecidableEq, Repr

/-- Idealized HMAC: the signature determines, and is determined by, the
signing secret and the signed payload. -/
def jwtSign (secret : String) (p : Payload) : String × Payload :=
  (secret, p)

/-- An encoded JWT: payload plus signature. -/
structure SignedToken : Type where
  payload : Payload
  sig : String × Payload
  deriving DecidableEq, Repr

/-- The `data` dict passed to `create_access_token` (before `exp` is added),
with the claim fields used by `verify_token`. -/
structure Claims : Type where
  key_id : Option String
  user_id : Option String
  permissions : List String
  guild_ids : List String
  channel_ids : List String
  deriving DecidableEq, Repr

/-- `settings.api_key_expire_hours` (default TTL), in seconds. -/
def api_key_expire_seconds : ℤ := 24 * 3600

/-- `create_access_token(data, expires_delta)` at time `now`:
`exp := now + expires_delta` (or the settings default), then
`jwt.encode(to_encode, settings.secret_key, ...)`. -/
def create_access_token (secret : String) (now : ℤ) (data : Claims)
    (expires_delta : Option ℤ) : SignedToken :=
  let expire : ℤ :=
    match expires_delta with
    | some d => now + d
    | none => now + api_key_expire_seconds
  let to_encode : Payload :=
    { key_id := data.key_id
      user_id := data.user_id
      permissions := data.permissions
      guild_ids := data.guild_ids
      channel_ids := data.channel_ids
      exp := expire }
  { payload := to_encode, sig := jwtSign secret to_encode }

/-- `jwt.decode(token, secret, algorithms=...)` at time `now`: fails when
the signature does not verify, or when the `exp` claim has passed; both
raise, and the caller's handlers turn any raise into `None`. -/
def jwtDecode (secret : String) (now : ℤ) (tok : SignedToken) :
    Option Payload :=
  if tok.sig ≠ jwtSign secret tok.payload then none
  else if tok.payload.exp ≤ now then none
  else some tok.payload

/-- `verify_token(token)` at time `now`: decode, then rebuild `TokenData`;
the permissions list is the comprehension
`[PermissionLevel(p) for p in permissions if p in PermissionLevel.__members__.values()]`,
which keeps exactly the strings equal to a member value and coerces them. -/
def verify_token (secret : String) (now : ℤ) (tok : SignedToken) :
    Option TokenData :=
  match jwtDecode secret now tok with
  | none => none
  | some payload =>
      let permission_levels :=
        (payload.permissions.filter
          fun p => decide (p ∈ PermissionLevel.memberValues)).filterMap
          PermissionLevel.ofString
      some
        { key_id := payload.key_id
          user_id := payload.user_id
          permissions := permission_levels
          guild_ids := payload.guild_ids
          channel_ids := payload.channel_ids }

/-- The `permission_hierarchy` dict of `check_permission`. -/
def permission_hierarchy : PermissionLevel → ℕ
  | .read_only => 1
  | .read_write => 2
  | .moderate => 3
  | .admin => 4

/-- `max([permission_hierarchy.get(p, 0) for p in permissions], default=0)`. -/
def user_max_level (perms : List PermissionLevel) : ℕ :=
  (perms.map permission_hierarchy).foldr max 0

/-- `check_permission(token_data, required_permission, guild_id, channel_id)`.
Returns `False` when the required level is neither held directly nor
dominated by the caller's maximum level; then applies the guild and channel
scope checks, each guarded by Python truthiness of the requested id and of
the scope list. -/
def check_permission (td : TokenData) (required : PermissionLevel)
    (guild_id channel_id : Option String) : Bool :=
  if required ∉ td.permissions ∧
      user_max_level td.permissions < permission_hierarchy required then
    false
  else if pyTruthy guild_id ∧ td.guild_ids ≠ [] ∧
      guild_id.getD "" ∉ td.guild_ids then
    false
  else if pyTruthy channel_id ∧ td.channel_ids ≠ [] ∧
      channel_id.getD "" ∉ td.channel_ids then
    false
  else
    true

/-! ## Middleware (`src/auth/middleware.py`) -/

/-- `require_guild_access(guild_id)` applied to the current user: the
request passes (no 403) unless the user's guild list is truthy (non-empty)
and does not contain `guild_id`. -/
def require_guild_access (guild_id : String) (current_user : TokenData) :
    Bool :=
  if current_user.guild_ids ≠ [] ∧ guild_id ∉ current_user.guild_ids then
    false
  else
    true

/-- `require_channel_access(channel_id)` applied to the current user. -/
def require_channel_access (channel_id : String) (current_user : TokenData) :
    Bool :=
  if current_user.channel_ids ≠ [] ∧ channel_id ∉ current_user.channel_ids then
    false
  else
    true

/-- The principal identifier computed by `rate_limit_middleware`:
`"anonymous"` when no token decodes, else
`token_data.key_id or token_data.user_id or "anonymous"`. -/
def middleware_principal (token_data : Option TokenData) : String :=
  match token_data with
  | none => "anonymous"
  | some td => firstTruthy td.key_id td.user_id "anonymous"

/-- The rate-limit key derived by `rate_limit_middleware` for a request:
`create_rate_limit_key("api", user_id, str(request.url.path))`. -/
def rate_limit_key_of_request (token_data : Option TokenData)
    (path : String) : String :=
  create_rate_limit_key "api" (middleware_principal token_data) (some path)

/-! ## Supporting lemmas -/

lemma permission_hierarchy_pos (p : PermissionLevel) :
    0 < permission_hierarchy p := by
  cases p <;> simp [permission_hierarchy]

lemma user_max_level_nil : user_max_level [] = 0 := rfl

lemma user_max_level_cons (p : PermissionLevel) (rest : List PermissionLevel) :
    user_max_level (p :: rest) =
      max (permission_hierarchy p) (user_max_level rest) := rfl

lemma le_user_max_level_iff (perms : List PermissionLevel) (a : ℕ)
    (ha : 0 < a) :
    a ≤ user_max_level perms ↔ ∃ p ∈ perms, a ≤ permission_hierarchy p := by
  induction perms with
  | nil => simp [user_max_level_nil]; omega
  | cons q rest ih =>
      rw [user_max_level_cons]
      simp only [le_max_iff, List.mem_cons]
      constructor
      · rintro (h | h)
        · exact ⟨q, Or.inl rfl, h⟩
        · obtain ⟨p, hp, hle⟩ := ih.mp h
          exact ⟨p, Or.inr hp, hle⟩
      · rintro ⟨p, hp | hp, hle⟩
        · exact Or.inl (hp ▸ hle)
        · exact Or.inr (ih.mpr ⟨p, hp, hle⟩)

lemma mem_zadd (now t : ℤ) (s : List ℤ) :
    t ∈ zadd now s ↔ t = now ∨ t ∈ s := by
  unfold zadd
  split_ifs with h
  · constructor
    · exact Or.inr
    · rintro (rfl | ht)
      · exact h
      · exact ht
  · simp

lemma mem_zremrangebyscore (minScore maxScore t : ℤ) (s : List ℤ) :
    t ∈ zremrangebyscore minScore maxScore s ↔
      t ∈ s ∧ ¬(minScore ≤ t ∧ t ≤ maxScore) := by
  unfold zremrangebyscore
  simp only [List.mem_filter, decide_eq_true_eq]

lemma zremrangebyscore_eq_self (minScore maxScore : ℤ) (s : List ℤ)
    (h : ∀ t ∈ s, maxScore < t) :
    zremrangebyscore minScore maxScore s = s := by
  unfold zremrangebyscore
  rw [List.filter_eq_self]
  intro t ht
  have := h t ht
  simp only [decide_eq_true_eq]
  omega

lemma zremrangebyscore_eq_nil (minScore maxScore : ℤ) (s : List ℤ)
    (h : ∀ t ∈ s, minScore ≤ t ∧ t ≤ maxScore) :
    zremrangebyscore minScore maxScore s = [] := by
  unfold zremrangebyscore
  rw [List.filter_eq_nil_iff]
  intro t ht
  have := h t ht
  simp only [decide_eq_true_eq]
  omega

lemma intercalate_two (a b : String) :
    String.intercalate ":" [a, b] = a ++ ":" ++ b := by
  simp [String.intercalate, String.intercalate.go]

lemma intercalate_three (a b c : String) :
    String.intercalate ":" [a, b, c] = a ++ ":" ++ b ++ ":" ++ c := by
  simp [String.intercalate, String.intercalate.go]

/-! ## Claim theorems -/

/-- C4: whenever the backing store fails (any raised error, modelled as
`StoreResult.err`), `RateLimiter.is_allowed` returns `true` — it fails open
and never propagates the store failure. -/
theorem c4_store_error_fails_open (limit : ℕ) (window now : ℤ)
    (msg : String) :
    (RateLimiter.is_allowed limit window now (.err msg)).1 = true := rfl

/-- C10: `create_rate_limit_key` is not injective in
`(identifier, endpoint)`: with prefix `"api"`, the distinct pairs
`("a:b", "c")` and `("a", "b:c")` produce the same key, because the `":"`
separator also occurs inside the identifier. -/
theorem c10_key_not_injective :
    create_rate_limit_key "api" "a:b" (some "c") =
        create_rate_limit_key "api" "a" (some "b:c") ∧
      (("a:b", (some "c" : Option String)) ≠
        ("a", (some "b:c" : Option String))) := by
  constructor
  · decide
  · decide

/-- C2 as stated is false: with limit 1 and window 10, starting from the
zset `{0}`, the call at time 1 observes count 1 ≥ 1 and is rejected, yet
the pipeline still inserts the timestamp 1 — the stored set is not left
unchanged apart from stale removal. -/
theorem c2_counterexample :
    (is_allowed_step 1 10 1 [(0 : ℤ)]).1 = false ∧
      (is_allowed_step 1 10 1 [(0 : ℤ)]).2 ≠
        zremrangebyscore 0 (1 - 10) [(0 : ℤ)] := by
  constructor
  · decide
  · decide

/-- C2 amended: the pipeline inserts a timestamp equal to `now`
unconditionally — on rejected calls as well; the call returns
`allowed = false` exactly when the post-removal count is at least the
limit, and the resulting set holds exactly `now` together with the
non-stale previous timestamps. -/
theorem c2_amended_always_inserts (limit : ℕ) (window now : ℤ)
    (s : List ℤ) :
    ((is_allowed_step limit window now s).1 = false ↔
        limit ≤ (zremrangebyscore 0 (now - window) s).length) ∧
      ∀ t : ℤ, t ∈ (is_allowed_step limit window now s).2 ↔
        t = now ∨ (t ∈ s ∧ ¬(0 ≤ t ∧ t ≤ now - window)) := by
  constructor
  · simp [is_allowed_step]
  · intro t
    show t ∈ zadd now (zremrangebyscore 0 (now - window) s) ↔ _
    rw [mem_zadd, mem_zremrangebyscore]

/-- C6: ignoring scope arguments, `check_permission` succeeds iff some held
permission dominates the required one in the hierarchy
`read_only < read_write < moderate < admin` (i.e. `max(held) ≥ required`);
in particular an empty held list never satisfies any requirement. -/
theorem c6_permission_iff_dominated (held : List PermissionLevel)
    (required : PermissionLevel) :
    (check_permission ⟨none, none, held, [], []⟩ required none none = true ↔
        ∃ p ∈ held, permission_hierarchy required ≤ permission_hierarchy p) ∧
      check_permission ⟨none, none, [], [], []⟩ required none none = false := by
  have hscope : ∀ l : List PermissionLevel,
      check_permission ⟨none, none, l, [], []⟩ required none none =
        if required ∉ l ∧ user_max_level l < permission_hierarchy required
        then false else true := by
    intro l
    unfold check_permission
    split_ifs with h1 h2 <;> simp_all [pyTruthy]
  constructor
  · rw [hscope]
    split_ifs with h
    · simp only [Bool.false_eq_true, false_iff]
      rintro ⟨p, hp, hle⟩
      have : permission_hierarchy required ≤ user_max_level held :=
        (le_user_max_level_iff held _
          (permission_hierarchy_pos required)).mpr ⟨p, hp, hle⟩
      omega
    · simp only [true_iff]
      rcases Decidable.not_and_iff_or_not.mp h with h1 | h2
      · exact ⟨required, Decidable.not_not.mp h1, le_refl _⟩
      · exact (le_user_max_level_iff held _
          (permission_hierarchy_pos required)).mp (by omega)
  · rw [hscope]
    rw [if_pos]
    refine ⟨by simp, ?_⟩
    rw [user_max_level_nil]
    exact permission_hierarchy_pos required

lemma is_allowed_step_eq (limit : ℕ) (window now : ℤ) (s : List ℤ) :
    is_allowed_step limit window now s =
      (decide ((zremrangebyscore 0 (now - window) s).length < limit),
        zadd now (zremrangebyscore 0 (now - window) s)) := rfl

/-- Characterization of a serialized execution on one key whose call
timestamps are pairwise distinct and mutually inside one window (together
with the pre-existing members `s`): no prune ever fires, every call inserts
its timestamp, and the k-th serialized call observes exactly
`s.length + k` members. -/
lemma runCalls_spec (limit : ℕ) (window : ℤ) (ts : List ℤ) :
    ∀ s : List ℤ, (ts ++ s).Nodup →
      (∀ a ∈ ts, ∀ b ∈ ts ++ s, a - window < b) →
      (runCalls limit window ts s).1 =
          (List.range ts.length).map (fun i => decide (s.length + i < limit)) ∧
        (runCalls limit window ts s).2 = ts.reverse ++ s := by
  induction ts with
  | nil => intro s _ _; simp [runCalls]
  | cons now rest ih =>
      intro s hnd hwin
      have hnowmem : now ∈ now :: rest := List.mem_cons_self _ _
      have hkeep : ∀ t ∈ s, now - window < t := fun t ht =>
        hwin now hnowmem t (List.mem_append_right _ ht)
      have hnd1 : (now :: (rest ++ s)).Nodup := by
        simpa using hnd
      have hnin : now ∉ rest ++ s := (List.nodup_cons.mp hnd1).1
      have hstep : is_allowed_step limit window now s =
          (decide (s.length < limit), now :: s) := by
        rw [is_allowed_step_eq, zremrangebyscore_eq_self _ _ _ hkeep]
        unfold zadd
        rw [if_neg (fun hmem => hnin (List.mem_append_right _ hmem))]
      have hnd2 : (rest ++ now :: s).Nodup :=
        (List.Perm.nodup_iff List.perm_middle).mpr hnd1
      have hwin2 : ∀ a ∈ rest, ∀ b ∈ rest ++ now :: s, a - window < b := by
        intro a ha b hb
        refine hwin a (List.mem_cons_of_mem _ ha) b ?_
        have : b ∈ now :: (rest ++ s) :=
          (List.Perm.mem_iff List.perm_middle).mp hb
        simpa using this
      obtain ⟨ih1, ih2⟩ := ih (now :: s) hnd2 hwin2
      constructor
      · show (is_allowed_step limit window now s).1 ::
            (runCalls limit window rest
              (is_allowed_step limit window now s).2).1 = _
        rw [hstep]
        simp only [ih1, List.length_cons, List.range_succ_eq_map,
          List.map_cons, List.map_map]
        congr 1
        rw [List.map_inj_left]
        intro i _
        simp only [Function.comp_apply]
        exact decide_eq_decide.mpr (by omega)
      · show (runCalls limit window rest
            (is_allowed_step limit window now s).2).2 = _
        rw [hstep]
        simp only [ih2, List.reverse_cons, List.append_assoc,
          List.singleton_append]

lemma count_range_decide_true (L n : ℕ) :
    (((List.range n).map fun i => decide (i < L)).count true) = min n L := by
  induction n with
  | zero => simp
  | succ n ih =>
      rw [List.range_succ, List.map_append, List.count_append]
      by_cases h : n < L
      · simp only [List.map_cons, List.map_nil, h, decide_eq_true_eq]
        simp [h, ih]
        omega
      · simp [h, ih]
        omega

lemma count_range_decide_false (L n : ℕ) :
    (((List.range n).map fun i => decide (i < L)).count false) =
      n - min n L := by
  induction n with
  | zero => simp
  | succ n ih =>
      rw [List.range_succ, List.map_append, List.count_append]
      by_cases h : n < L
      · simp [h, ih]
        omega
      · simp [h, ih]
        omega

/-- C1 as stated is false: the zset member is `str(now)`, so concurrent
calls that capture an identical `time.time()` value collapse into one
member, the observed count stalls below the limit, and more than `limit`
calls are admitted.  Three serialized calls all at time 5 against limit 2
(window 10) are all admitted: 3 ≠ 2 calls return `allowed = true` although
`C = 3 > 2 = limit`. -/
theorem c1_counterexample :
    (runCalls 2 10 [(5 : ℤ), 5, 5] []).1 = [true, true, true] ∧
      (runCalls 2 10 [(5 : ℤ), 5, 5] []).1.count true ≠ 2 ∧
      2 < [(5 : ℤ), 5, 5].length := by
  refine ⟨by decide, by decide, by decide⟩

/-- C1 amended: each `is_allowed` round-trip is one transactional
pipeline, so a set of concurrent calls for one key executes as some
serialization of atomic remove/count/insert/expire units.  For every such
serialization of `C` calls with **pairwise distinct** timestamps, all
within one window, and `C > limit`, exactly `limit` calls return
`allowed = true` and `C - limit` return `allowed = false`: no
interleaving admits two requests past the limit on the same observed
count.  (Calls sharing an identical timestamp collapse to one zset member
and can be over-admitted, per the counterexample.) -/
theorem c1_concurrent_exactly_limit_allowed (limit : ℕ) (window : ℤ)
    (ts : List ℤ) (hnd : ts.Nodup)
    (hwin : ∀ a ∈ ts, ∀ b ∈ ts, a - window < b)
    (hover : limit < ts.length) :
    (runCalls limit window ts []).1.count true = limit ∧
      (runCalls limit window ts []).1.count false = ts.length - limit := by
  obtain ⟨hdec, -⟩ := runCalls_spec limit window ts []
    (by simpa using hnd)
    (by intro a ha b hb; exact hwin a ha b (by simpa using hb))
  rw [hdec]
  simp only [List.length_nil, Nat.zero_add]
  rw [count_range_decide_true, count_range_decide_false]
  constructor <;> omega

/-- Witness for C1 at limit 2, window 10 and the three-call serialization
`[0, 1, 2]`: exactly 2 calls are admitted and 1 is rejected. -/
theorem c1_concurrent_exactly_limit_allowed_witness :
    (runCalls 2 10 [(0 : ℤ), 1, 2] []).1.count true = 2 ∧
      (runCalls 2 10 [(0 : ℤ), 1, 2] []).1.count false =
        [(0 : ℤ), 1, 2].length - 2 :=
  c1_concurrent_exactly_limit_allowed 2 10 [0, 1, 2]
    (by decide) (by decide) (by decide)

/-- C3: sequentially from an empty key, any `N ≤ limit` calls inside one
window are all admitted; with exactly `limit` prior calls, the next call
inside the window (the `(limit+1)`-th) is rejected; and once a full window
passes with no further requests for the key, the next call is admitted
again. -/
theorem c3_sequential_sliding_window (limit : ℕ) (window : ℤ)
    (ts : List ℤ) (tNext tFar : ℤ)
    (hnd : (ts ++ [tNext]).Nodup)
    (hwin : ∀ a ∈ ts ++ [tNext], ∀ b ∈ ts ++ [tNext], a - window < b)
    (hpos : 0 < limit)
    (hnn : ∀ t ∈ ts ++ [tNext], 0 ≤ t)
    (hfar : ∀ t ∈ ts ++ [tNext], t ≤ tFar - window) :
    (ts.length ≤ limit →
        ∀ b ∈ (runCalls limit window ts []).1, b = true) ∧
      (ts.length = limit →
        (is_allowed_step limit window tNext
          (runCalls limit window ts []).2).1 = false) ∧
      (is_allowed_step limit window tFar
        (runCalls limit window (ts ++ [tNext]) []).2).1 = true := by
  have hndTs : ts.Nodup :=
    List.Nodup.sublist (List.sublist_append_left ts [tNext]) hnd
  have hwinTs : ∀ a ∈ ts, ∀ b ∈ ts, a - window < b := fun a ha b hb =>
    hwin a (List.mem_append_left _ ha) b (List.mem_append_left _ hb)
  obtain ⟨hdecTs, hstTs⟩ := runCalls_spec limit window ts []
    (by simpa using hndTs)
    (by intro a ha b hb; exact hwinTs a ha b (by simpa using hb))
  refine ⟨?_, ?_, ?_⟩
  · intro hN b hb
    rw [hdecTs] at hb
    obtain ⟨i, hi, rfl⟩ := List.mem_map.mp hb
    have hilt : i < ts.length := List.mem_range.mp hi
    simp only [List.length_nil, Nat.zero_add, decide_eq_true_eq]
    omega
  · intro hL
    rw [is_allowed_step_eq, hstTs]
    have hkeep : ∀ t ∈ ts.reverse ++ ([] : List ℤ), tNext - window < t := by
      intro t ht
      rw [List.append_nil, List.mem_reverse] at ht
      exact hwin tNext (List.mem_append_right _ (by simp)) t
        (List.mem_append_left _ ht)
    rw [zremrangebyscore_eq_self _ _ _ hkeep]
    simp only [List.append_nil, List.length_reverse, hL]
    exact decide_eq_false_iff_not.mpr (lt_irrefl _)
  · obtain ⟨-, hstAll⟩ := runCalls_spec limit window (ts ++ [tNext]) []
      (by simpa using hnd)
      (by intro a ha b hb; exact hwin a ha b (by simpa using hb))
    rw [is_allowed_step_eq, hstAll]
    have hall : ∀ t ∈ (ts ++ [tNext]).reverse ++ ([] : List ℤ),
        0 ≤ t ∧ t ≤ tFar - window := by
      intro t ht
      rw [List.append_nil, List.mem_reverse] at ht
      exact ⟨hnn t ht, hfar t ht⟩
    rw [zremrangebyscore_eq_nil _ _ _ hall]
    simpa using hpos

/-- Witness for C3 at limit 2, window 10, calls at times 0 and 1, the
over-limit call at time 2, and the revival call at time 20. -/
theorem c3_sequential_sliding_window_witness :
    (([(0 : ℤ), 1].length ≤ 2 →
        ∀ b ∈ (runCalls 2 10 [(0 : ℤ), 1] []).1, b = true) ∧
      ([(0 : ℤ), 1].length = 2 →
        (is_allowed_step 2 10 2 (runCalls 2 10 [(0 : ℤ), 1] []).2).1 =
          false) ∧
      (is_allowed_step 2 10 20
        (runCalls 2 10 ([(0 : ℤ), 1] ++ [2]) []).2).1 = true) :=
  c3_sequential_sliding_window 2 10 [0, 1] 2 20
    (by decide) (by decide) (by decide) (by decide) (by decide)

lemma value_mem_memberValues (p : PermissionLevel) :
    PermissionLevel.value p ∈ PermissionLevel.memberValues := by
  cases p <;> simp [PermissionLevel.value, PermissionLevel.memberValues]

lemma ofString_value (p : PermissionLevel) :
    PermissionLevel.ofString (PermissionLevel.value p) = some p := by
  cases p <;> rfl

lemma ofString_eq_none_of_not_mem (s : String)
    (h : s ∉ PermissionLevel.memberValues) :
    PermissionLevel.ofString s = none := by
  unfold PermissionLevel.ofString
  split_ifs with h1 h2 h3 h4 <;> simp_all [PermissionLevel.memberValues]

/-- The comprehension in `verify_token` (filter to known member values,
then coerce) equals a plain partial parse of each entry. -/
lemma coerce_permissions_eq_filterMap (l : List String) :
    (l.filter fun p => decide (p ∈ PermissionLevel.memberValues)).filterMap
        PermissionLevel.ofString = l.filterMap PermissionLevel.ofString := by
  induction l with
  | nil => rfl
  | cons p rest ih =>
      by_cases h : p ∈ PermissionLevel.memberValues
      · simp [List.filter_cons, h, List.filterMap_cons, ih]
      · simp [List.filter_cons, h, List.filterMap_cons, ih,
          ofString_eq_none_of_not_mem p h]

lemma filterMap_ofString_comp_value (perms : List PermissionLevel) :
    List.filterMap (PermissionLevel.ofString ∘ PermissionLevel.value)
        perms = perms := by
  induction perms with
  | nil => rfl
  | cons p rest ih =>
      simp [List.filterMap_cons, Function.comp_apply, ofString_value, ih]

/-- Decoding a token issued with the same secret, before its expiry,
succeeds and returns the encoded claims with the permissions entries
parsed (unparseable entries dropped). -/
lemma verify_create (secret : String) (now nowV ttl : ℤ) (data : Claims)
    (hbefore : nowV < now + ttl) :
    verify_token secret nowV
        (create_access_token secret now data (some ttl)) =
      some ⟨data.key_id, data.user_id,
        data.permissions.filterMap PermissionLevel.ofString,
        data.guild_ids, data.channel_ids⟩ := by
  simp [create_access_token, verify_token, jwtDecode, jwtSign,
    coerce_permissions_eq_filterMap,
    show ¬(now + ttl ≤ nowV) from by omega]

/-- C5: issue-then-decode round trip: for any claims set whose permissions
are drawn from the `PermissionLevel` enum and any positive ttl, a token
created by `create_access_token` and decoded by `verify_token` with the
same secret before the ttl elapses yields the claims unchanged. -/
theorem c5_issue_decode_round_trip (secret : String) (now nowV ttl : ℤ)
    (key_id user_id : Option String) (perms : List PermissionLevel)
    (guilds channels : List String)
    (_httl : 0 < ttl) (hbefore : nowV < now + ttl) :
    verify_token secret nowV
        (create_access_token secret now
          ⟨key_id, user_id, perms.map PermissionLevel.value, guilds,
            channels⟩ (some ttl)) =
      some ⟨key_id, user_id, perms, guilds, channels⟩ := by
  rw [verify_create secret now nowV ttl _ hbefore]
  simp [List.filterMap_map, filterMap_ofString_comp_value]

/-- Witness for C5 at a concrete claims set and ttl 3600. -/
theorem c5_issue_decode_round_trip_witness :
    (0 : ℤ) < 3600 ∧ (10 : ℤ) < 0 + 3600 ∧
      verify_token "secret" 10
          (create_access_token "secret" 0
            ⟨some "k1", none,
              [PermissionLevel.read_only].map PermissionLevel.value,
              ["g1"], ["c1"]⟩ (some 3600)) =
        some ⟨some "k1", none, [PermissionLevel.read_only], ["g1"], ["c1"]⟩ :=
  ⟨by decide, by decide,
    c5_issue_decode_round_trip "secret" 0 10 3600 (some "k1") none
      [PermissionLevel.read_only] ["g1"] ["c1"] (by decide) (by decide)⟩

/-- C8 as stated is false: a token whose permissions claim is `["bogus"]`
is not rejected at decode time — `verify_token` succeeds and silently
drops the unknown value. -/
theorem c8_counterexample :
    verify_token "s" 1
        (create_access_token "s" 0 ⟨none, some "u", ["bogus"], [], []⟩
          (some 10)) =
      some ⟨none, some "u", [], [], []⟩ ∧
    verify_token "s" 1
        (create_access_token "s" 0 ⟨none, some "u", ["bogus"], [], []⟩
          (some 10)) ≠ none := by
  constructor
  · decide
  · decide

/-- C8 amended: permission strings that are not one of the four known
values are silently dropped at decode time: the token still decodes
successfully, and the returned permissions are exactly the parseable
entries. -/
theorem c8_amended_unknown_values_dropped (secret : String)
    (now nowV ttl : ℤ) (key_id user_id : Option String)
    (permStrings guilds channels : List String)
    (hbefore : nowV < now + ttl) :
    verify_token secret nowV
        (create_access_token secret now
          ⟨key_id, user_id, permStrings, guilds, channels⟩ (some ttl)) =
      some ⟨key_id, user_id,
        permStrings.filterMap PermissionLevel.ofString, guilds, channels⟩ :=
  verify_create secret now nowV ttl _ hbefore

/-- Witness for amended C8: `["bogus", "admin"]` decodes to `[admin]`. -/
theorem c8_amended_unknown_values_dropped_witness :
    (1 : ℤ) < 0 + 10 ∧
      verify_token "s" 1
          (create_access_token "s" 0
            ⟨none, some "u", ["bogus", "admin"], [], []⟩ (some 10)) =
        some ⟨none, some "u",
          (["bogus", "admin"] : List String).filterMap
            PermissionLevel.ofString, [], []⟩ :=
  ⟨by decide,
    c8_amended_unknown_values_dropped "s" 0 1 10 none (some "u")
      ["bogus", "admin"] [] [] (by decide)⟩

/-- C7 as stated is false: the empty-string guild id is Python-falsy, so
`check_permission` skips the guild-scope test and authorizes, although the
requested id is present, the scope is non-empty, and the id is not a
member of the scope. -/
theorem c7_counterexample :
    check_permission ⟨none, none, [PermissionLevel.admin], ["g1"], []⟩
        PermissionLevel.read_only (some "") none = true ∧
      ¬((some "" : Option String) = none ∨ (["g1"] : List String) = [] ∨
        (some "" : Option String).getD "" ∈ (["g1"] : List String)) := by
  constructor
  · decide
  · decide

/-- The negation of one scope-check guard of `check_permission`, restated
as the amended authorization condition of that dimension. -/
lemma scope_cond_iff (o : Option String) (l : List String) :
    ¬(pyTruthy o ∧ l ≠ [] ∧ o.getD "" ∉ l) ↔
      ((o = none ∨ o = some "") ∨ l = [] ∨ o.getD "" ∈ l) := by
  unfold pyTruthy
  constructor
  · intro h
    by_cases h1 : o = none
    · exact Or.inl (Or.inl h1)
    by_cases h2 : o = some ""
    · exact Or.inl (Or.inr h2)
    by_cases h3 : l = []
    · exact Or.inr (Or.inl h3)
    by_cases h4 : o.getD "" ∈ l
    · exact Or.inr (Or.inr h4)
    exact absurd ⟨⟨h1, h2⟩, h3, h4⟩ h
  · rintro ((h | h) | h | h) ⟨⟨hn, hs⟩, hne, hnm⟩
    · exact hn h
    · exact hs h
    · exact hne h
    · exact hnm h

/-- The negation of the guard of `require_guild_access` /
`require_channel_access`. -/
lemma list_scope_cond_iff (x : String) (l : List String) :
    ¬(l ≠ [] ∧ x ∉ l) ↔ (l = [] ∨ x ∈ l) := by
  constructor
  · intro h
    by_cases h1 : l = []
    · exact Or.inl h1
    by_cases h2 : x ∈ l
    · exact Or.inr h2
    exact absurd ⟨h1, h2⟩ h
  · rintro (h | h) ⟨hne, hnm⟩
    · exact hne h
    · exact hnm h

/-- C7 amended: in `check_permission` a requested id counts as absent when
it is `None` or the empty string; given the permission gate passes, the
check succeeds iff, in each dimension, the id is absent-or-empty, the
scope list is empty, or the id is listed.  In the middleware dependencies
`require_guild_access` / `require_channel_access` the requested id is a
plain string and access is granted iff the scope list is empty or the id
is listed. -/
theorem c7_amended_scope_semantics (td : TokenData)
    (required : PermissionLevel) (guild_id channel_id : Option String)
    (gid cid : String)
    (hperm : required ∈ td.permissions ∨
      permission_hierarchy required ≤ user_max_level td.permissions) :
    (check_permission td required guild_id channel_id = true ↔
        ((guild_id = none ∨ guild_id = some "") ∨ td.guild_ids = [] ∨
          guild_id.getD "" ∈ td.guild_ids) ∧
        ((channel_id = none ∨ channel_id = some "") ∨ td.channel_ids = [] ∨
          channel_id.getD "" ∈ td.channel_ids)) ∧
      (require_guild_access gid td = true ↔
        td.guild_ids = [] ∨ gid ∈ td.guild_ids) ∧
      (require_channel_access cid td = true ↔
        td.channel_ids = [] ∨ cid ∈ td.channel_ids) := by
  have hgate : ¬(required ∉ td.permissions ∧
      user_max_level td.permissions < permission_hierarchy required) := by
    rcases hperm with h | h
    · exact fun hc => hc.1 h
    · exact fun hc => absurd h (by omega)
  refine ⟨?_, ?_, ?_⟩
  · unfold check_permission
    rw [if_neg hgate]
    by_cases h2 : pyTruthy guild_id ∧ td.guild_ids ≠ [] ∧
        guild_id.getD "" ∉ td.guild_ids
    · rw [if_pos h2]
      simp only [Bool.false_eq_true, false_iff]
      exact fun hcon => (scope_cond_iff _ _).mpr hcon.1 h2
    · rw [if_neg h2]
      by_cases h3 : pyTruthy channel_id ∧ td.channel_ids ≠ [] ∧
          channel_id.getD "" ∉ td.channel_ids
      · rw [if_pos h3]
        simp only [Bool.false_eq_true, false_iff]
        exact fun hcon => (scope_cond_iff _ _).mpr hcon.2 h3
      · rw [if_neg h3]
        simp only [true_iff]
        exact ⟨(scope_cond_iff _ _).mp h2, (scope_cond_iff _ _).mp h3⟩
  · unfold require_guild_access
    by_cases h : td.guild_ids ≠ [] ∧ gid ∉ td.guild_ids
    · rw [if_pos h]
      simp only [Bool.false_eq_true, false_iff]
      exact fun hcon => (list_scope_cond_iff _ _).mpr hcon h
    · rw [if_neg h]
      simp only [true_iff]
      exact (list_scope_cond_iff _ _).mp h
  · unfold require_channel_access
    by_cases h : td.channel_ids ≠ [] ∧ cid ∉ td.channel_ids
    · rw [if_pos h]
      simp only [Bool.false_eq_true, false_iff]
      exact fun hcon => (list_scope_cond_iff _ _).mpr hcon h
    · rw [if_neg h]
      simp only [true_iff]
      exact (list_scope_cond_iff _ _).mp h

/-- Witness for amended C7: an admin-permission principal scoped to guild
`g1`, requesting guild `g1`, no channel; middleware ids `g2` and `c1`. -/
theorem c7_amended_scope_semantics_witness :
    (PermissionLevel.read_only ∈ [PermissionLevel.admin] ∨
      permission_hierarchy PermissionLevel.read_only ≤
        user_max_level [PermissionLevel.admin]) ∧
      ((check_permission ⟨none, none, [PermissionLevel.admin], ["g1"], []⟩
            PermissionLevel.read_only (some "g1") none = true ↔
          (((some "g1" : Option String) = none ∨
              (some "g1" : Option String) = some "") ∨
            (["g1"] : List String) = [] ∨
            (some "g1" : Option String).getD "" ∈ (["g1"] : List String)) ∧
          (((none : Option String) = none ∨
              (none : Option String) = some "") ∨
            ([] : List String) = [] ∨
            (none : Option String).getD "" ∈ ([] : List String))) ∧
        (require_guild_access "g2"
            ⟨none, none, [PermissionLevel.admin], ["g1"], []⟩ = true ↔
          (["g1"] : List String) = [] ∨ "g2" ∈ (["g1"] : List String)) ∧
        (require_channel_access "c1"
            ⟨none, none, [PermissionLevel.admin], ["g1"], []⟩ = true ↔
          ([] : List String) = [] ∨ "c1" ∈ ([] : List String))) :=
  ⟨by decide,
    c7_amended_scope_semantics
      ⟨none, none, [PermissionLevel.admin], ["g1"], []⟩
      PermissionLevel.read_only (some "g1") none "g2" "c1" (by decide)⟩

/-- Modelled from the spec (§4.4 step 5), for comparison with the code's
key derivation: the spec's principal identifier is the keyId if present,
else the userId, else the string `"anonymous"` concatenated with the
caller's IP address. -/
def specPrincipalIdentifier (keyId userId : Option String)
    (callerIp : String) : String :=
  match keyId with
  | some k => k
  | none =>
      match userId with
      | some u => u
      | none => "anonymous" ++ callerIp

/-- C9 as stated is false: for an unauthenticated request the middleware
key uses the literal `"anonymous"` with no IP component, so it differs
from the spec's `"anonymous" + callerIp` form at any non-empty IP. -/
theorem c9_counterexample :
    rate_limit_key_of_request none "/messages" = "api:anonymous:/messages" ∧
      rate_limit_key_of_request none "/messages" ≠
        create_rate_limit_key "api"
          (specPrincipalIdentifier none none "1.2.3.4")
          (some "/messages") := by
  constructor
  · decide
  · decide

/-- The amended fallback on the user id: the userId when truthy, else the
literal `"anonymous"`. -/
def amendedUserFallback : Option String → String
  | some u => if u = "" then "anonymous" else u
  | none => "anonymous"

/-- The amended principal identifier: the keyId when truthy, else the
userId when truthy, else the literal `"anonymous"`; the caller's IP
address is not part of the key. -/
def amendedPrincipalIdentifier : Option TokenData → String
  | none => "anonymous"
  | some td =>
      match td.key_id with
      | some k => if k = "" then amendedUserFallback td.user_id else k
      | none => amendedUserFallback td.user_id

lemma firstTruthy_eq_amended (kid uid : Option String) :
    firstTruthy kid uid "anonymous" =
      amendedPrincipalIdentifier (some ⟨kid, uid, [], [], []⟩) := by
  have hfb : (if pyTruthy uid then uid.getD "" else "anonymous") =
      amendedUserFallback uid := by
    cases uid with
    | none => simp [pyTruthy, amendedUserFallback]
    | some u =>
        by_cases hu : u = "" <;>
          simp [pyTruthy, amendedUserFallback, hu]
  cases kid with
  | none =>
      unfold firstTruthy amendedPrincipalIdentifier
      rw [if_neg (by simp [pyTruthy])]
      exact hfb
  | some k =>
      by_cases hk : k = ""
      · subst hk
        unfold firstTruthy
        rw [if_neg (by simp [pyTruthy])]
        exact hfb
      · unfold firstTruthy
        rw [if_pos ⟨by simp, by simp [hk]⟩]
        show (some k).getD "" = if k = "" then amendedUserFallback uid else k
        rw [if_neg hk]
        rfl

/-- C9 amended: the middleware derives the key as
`"api" : principal : path` where the principal is the keyId when truthy,
else the userId when truthy, else the literal `"anonymous"`; the caller's
IP address is never included. -/
theorem c9_amended_key_derivation (token_data : Option TokenData)
    (path : String) (hpath : path ≠ "") :
    rate_limit_key_of_request token_data path =
      "api:" ++ amendedPrincipalIdentifier token_data ++ ":" ++ path := by
  have hkey : ∀ ident : String,
      create_rate_limit_key "api" ident (some path) =
        "api:" ++ ident ++ ":" ++ path := by
    intro ident
    show String.intercalate ":"
        (if pyTruthy (some path) then ["api", ident] ++ [(some path).getD ""]
          else ["api", ident]) = _
    rw [if_pos (show pyTruthy (some path) from ⟨by simp, by simp [hpath]⟩)]
    exact intercalate_three "api" ident path
  have hprin : middleware_principal token_data =
      amendedPrincipalIdentifier token_data := by
    cases token_data with
    | none => rfl
    | some td =>
        rcases td with ⟨kid, uid, perms, gids, cids⟩
        show firstTruthy kid uid "anonymous" = _
        rw [firstTruthy_eq_amended]
        cases kid <;> rfl
  show create_rate_limit_key "api" (middleware_principal token_data)
      (some path) = _
  rw [hkey, hprin]

/-- Witness for amended C9 at a token with truthy keyId and path `/x`. -/
theorem c9_amended_key_derivation_witness :
    ("/x" : String) ≠ "" ∧
      rate_limit_key_of_request
          (some ⟨some "k", some "u", [], [], []⟩) "/x" =
        "api:" ++ amendedPrincipalIdentifier
          (some ⟨some "k", some "u", [], [], []⟩) ++ ":" ++ "/x" :=
  ⟨by decide,
    c9_amended_key_derivation (some ⟨some "k", some "u", [], [], []⟩) "/x"
      (by decide)⟩

end DiscordMCP
